import Mathlib

/-!
# Verification of the COG-Conversion streaming orchestrator

A shallow embedding of `src/streamer/streamer.py` (the streaming
orchestration engine of GeoscienceAustralia/COG-Conversion) together with
proofs and refutations of the specification claims about it.

External effects (filesystem, `aws s3 sync`, GDAL subprocesses, netCDF
reads) are modelled by oracle functions packaged in environment records;
the control flow around them is translated directly from the Python
source.
-/

namespace Streamer

/-- `MAX_QUEUE_SIZE = 16` from streamer.py line 71: the bounded hand-off
queue capacity, also used for the producer's backpressure arithmetic. -/
def MAX_QUEUE_SIZE : Nat := 16

/-- `WORKERS_POOL = 7` from streamer.py line 72. -/
def WORKERS_POOL : Nat := 7

/-! ## The consumer's per-item publish: `upload_to_s3` (lines 114-169)

For each prefix (artifact sub-directory) of the item, the code runs three
external steps, each in its own `try`: (1) `rm -fR -- <src>/*.xml`,
(2) `aws s3 sync <src> <dest_name>`, (3) `rm -fR -- <src>`.  A failure of
any step logs an error and sets the shared `success` flag to `False`;
after the loop the item is appended to the job (checkpoint) file iff
`success` is still `True`.  Note that step (3), the staging sub-directory
removal, is executed for every prefix regardless of whether step (2)
succeeded. -/

/-- Oracle outcomes for the three external commands run by `upload_to_s3`,
keyed by the staging sub-directory `src` (and, for the sync, also the
destination). `true` means the command exits successfully. -/
structure UploadEnv where
  rmXmlOk : String → Bool
  syncOk : String → String → Bool
  rmDirOk : String → Bool

/-- Observable outcome of one `upload_to_s3` call: the final `success`
flag, the staging sub-directories whose `rm -fR` succeeded (hence are
gone), the lines appended to the checkpoint log, and the number of
errors logged. -/
structure UploadOutcome where
  success : Bool
  removed : List String
  appended : List String
  errors : Nat
  deriving Repr, DecidableEq

/-- One iteration of the `for index in range(len(file_names))` loop of
`upload_to_s3` (lines 127-164), threading the `(success, removed, errors)`
accumulator: each of the three steps is attempted unconditionally, a
failing step sets `success := false` and logs one error, and a succeeding
step (3) records the removal of `src`. -/
def uploadPrefixStep (env : UploadEnv) (src_dir dest : String)
    (acc : Bool × List String × Nat) (prefix_ : String) : Bool × List String × Nat :=
  let src := src_dir ++ "/" ++ prefix_
  let dest_name := dest ++ "/" ++ prefix_
  let (succ, rem, errs) := acc
  let (succ, errs) := if env.rmXmlOk src then (succ, errs) else (false, errs + 1)
  let (succ, errs) := if env.syncOk src dest_name then (succ, errs) else (false, errs + 1)
  let (succ, rem, errs) :=
    if env.rmDirOk src then (succ, rem ++ [src], errs) else (false, rem, errs + 1)
  (succ, rem, errs)

/-- `upload_to_s3(product, job_control, file, src_dir, dest, job_file)`
(lines 114-169): iterate `uploadPrefixStep` over the item's prefixes
(`file_names = job_control.get_unstacked_names(product, file)`, supplied
here as the list `prefixes`), then append `file` to the checkpoint log
iff the accumulated `success` flag survived every step. -/
def upload_to_s3 (env : UploadEnv) (prefixes : List String)
    (file src_dir dest : String) : UploadOutcome :=
  let acc := prefixes.foldl (uploadPrefixStep env src_dir dest) (true, [], 0)
  { success := acc.1
    removed := acc.2.1
    appended := if acc.1 then [file] else []
    errors := acc.2.2 }

/-- All three steps of one prefix succeed. -/
def prefixStepsOk (env : UploadEnv) (src_dir dest prefix_ : String) : Bool :=
  env.rmXmlOk (src_dir ++ "/" ++ prefix_)
    && env.syncOk (src_dir ++ "/" ++ prefix_) (dest ++ "/" ++ prefix_)
    && env.rmDirOk (src_dir ++ "/" ++ prefix_)

theorem uploadPrefixStep_success (env : UploadEnv) (src_dir dest : String)
    (acc : Bool × List String × Nat) (p : String) :
    (uploadPrefixStep env src_dir dest acc p).1
      = (acc.1 && prefixStepsOk env src_dir dest p) := by
  rcases acc with ⟨s, r, e⟩
  simp only [uploadPrefixStep, prefixStepsOk]
  rcases h1 : env.rmXmlOk (src_dir ++ "/" ++ p) <;>
    rcases h2 : env.syncOk (src_dir ++ "/" ++ p) (dest ++ "/" ++ p) <;>
    rcases h3 : env.rmDirOk (src_dir ++ "/" ++ p) <;> simp [h1, h2, h3]

theorem upload_foldl_success (env : UploadEnv) (src_dir dest : String)
    (prefixes : List String) (acc : Bool × List String × Nat) :
    (prefixes.foldl (uploadPrefixStep env src_dir dest) acc).1
      = (acc.1 && prefixes.all (prefixStepsOk env src_dir dest)) := by
  induction prefixes generalizing acc with
  | nil => simp
  | cons p ps ih =>
      rw [List.foldl_cons, ih, List.all_cons, uploadPrefixStep_success,
        Bool.and_assoc]

/-- The dir-removal recorded by the fold: every prefix whose `rm -fR src`
succeeds is removed, independently of the other steps' outcomes. -/
theorem uploadPrefixStep_removed (env : UploadEnv) (src_dir dest : String)
    (acc : Bool × List String × Nat) (p : String) :
    (uploadPrefixStep env src_dir dest acc p).2.1
      = acc.2.1 ++ (if env.rmDirOk (src_dir ++ "/" ++ p)
          then [src_dir ++ "/" ++ p] else []) := by
  rcases acc with ⟨s, r, e⟩
  simp only [uploadPrefixStep]
  rcases h1 : env.rmXmlOk (src_dir ++ "/" ++ p) <;>
    rcases h2 : env.syncOk (src_dir ++ "/" ++ p) (dest ++ "/" ++ p) <;>
    rcases h3 : env.rmDirOk (src_dir ++ "/" ++ p) <;> simp [h1, h2, h3]

theorem upload_foldl_removed (env : UploadEnv) (src_dir dest : String)
    (prefixes : List String) (acc : Bool × List String × Nat) :
    (prefixes.foldl (uploadPrefixStep env src_dir dest) acc).2.1
      = acc.2.1 ++ prefixes.filterMap
          (fun p => if env.rmDirOk (src_dir ++ "/" ++ p)
            then some (src_dir ++ "/" ++ p) else none) := by
  induction prefixes generalizing acc with
  | nil => simp
  | cons p ps ih =>
      rw [List.foldl_cons, ih, uploadPrefixStep_removed]
      rcases h3 : env.rmDirOk (src_dir ++ "/" ++ p) <;>
        simp [h3, List.append_assoc]

/-- Number of errors logged while processing one prefix: one per failing
step (each `except` branch of lines 137-140, 152-155, 161-164 logs). -/
def prefixFailCount (env : UploadEnv) (src_dir dest prefix_ : String) : Nat :=
  (if env.rmXmlOk (src_dir ++ "/" ++ prefix_) then 0 else 1)
    + (if env.syncOk (src_dir ++ "/" ++ prefix_) (dest ++ "/" ++ prefix_) then 0 else 1)
    + (if env.rmDirOk (src_dir ++ "/" ++ prefix_) then 0 else 1)

theorem uploadPrefixStep_errors (env : UploadEnv) (src_dir dest : String)
    (acc : Bool × List String × Nat) (p : String) :
    (uploadPrefixStep env src_dir dest acc p).2.2
      = acc.2.2 + prefixFailCount env src_dir dest p := by
  rcases acc with ⟨s, r, e⟩
  simp only [uploadPrefixStep, prefixFailCount]
  rcases h1 : env.rmXmlOk (src_dir ++ "/" ++ p) <;>
    rcases h2 : env.syncOk (src_dir ++ "/" ++ p) (dest ++ "/" ++ p) <;>
    rcases h3 : env.rmDirOk (src_dir ++ "/" ++ p) <;> simp [h1, h2, h3]

theorem upload_foldl_errors (env : UploadEnv) (src_dir dest : String)
    (prefixes : List String) (acc : Bool × List String × Nat) :
    (prefixes.foldl (uploadPrefixStep env src_dir dest) acc).2.2
      = acc.2.2 + (prefixes.map (prefixFailCount env src_dir dest)).sum := by
  induction prefixes generalizing acc with
  | nil => simp
  | cons p ps ih =>
      rw [List.foldl_cons, ih, uploadPrefixStep_errors, List.map_cons, List.sum_cons]
      omega

theorem prefixStepsOk_false_failCount (env : UploadEnv) (src_dir dest p : String)
    (h : prefixStepsOk env src_dir dest p = false) :
    1 ≤ prefixFailCount env src_dir dest p := by
  simp only [prefixStepsOk] at h
  simp only [prefixFailCount]
  rcases h1 : env.rmXmlOk (src_dir ++ "/" ++ p) <;>
    rcases h2 : env.syncOk (src_dir ++ "/" ++ p) (dest ++ "/" ++ p) <;>
    rcases h3 : env.rmDirOk (src_dir ++ "/" ++ p) <;>
    simp [h1, h2, h3] at h ⊢

theorem upload_to_s3_success (env : UploadEnv) (prefixes : List String)
    (file src_dir dest : String) :
    (upload_to_s3 env prefixes file src_dir dest).success
      = prefixes.all (prefixStepsOk env src_dir dest) := by
  simp only [upload_to_s3, upload_foldl_success, Bool.true_and]

theorem upload_to_s3_appended (env : UploadEnv) (prefixes : List String)
    (file src_dir dest : String) :
    (upload_to_s3 env prefixes file src_dir dest).appended
      = (if prefixes.all (prefixStepsOk env src_dir dest) then [file] else []) := by
  simp only [upload_to_s3, upload_foldl_success, Bool.true_and]

theorem upload_to_s3_removed (env : UploadEnv) (prefixes : List String)
    (file src_dir dest : String) :
    (upload_to_s3 env prefixes file src_dir dest).removed
      = prefixes.filterMap (fun p =>
          if env.rmDirOk (src_dir ++ "/" ++ p) then some (src_dir ++ "/" ++ p)
          else none) := by
  simp only [upload_to_s3, upload_foldl_removed, List.nil_append]

theorem upload_to_s3_errors (env : UploadEnv) (prefixes : List String)
    (file src_dir dest : String) :
    (upload_to_s3 env prefixes file src_dir dest).errors
      = (prefixes.map (prefixFailCount env src_dir dest)).sum := by
  simp only [upload_to_s3, upload_foldl_errors, Nat.zero_add]

/-- Environment in which the `aws s3 sync` step fails but both removal
commands succeed: a failed publish whose staging sub-directory is
nevertheless deleted. -/
def c5Env : UploadEnv :=
  { rmXmlOk := fun _ => true
    syncOk := fun _ _ => false
    rmDirOk := fun _ => true }

/-! ## Pending-set computation in `Streamer.__init__` (lines 419-495)

The constructor reads the checkpoint log (`items_done`), filters the
full item list through `_path_check` (which compares paths with
`os.path.samefile`), and applies the optional `limit` truncation — or,
when a `file_range` is supplied, takes the inclusive slice
`items_all[start_file : end_file + 1]` instead, skipping both the
checkpoint filter and the limit. -/

/-- Abstract filesystem: a path maps to the identity (device/inode pair,
collapsed to one `Nat`) of the file it denotes, or to `none` when the
path does not exist or cannot be stat-ed. -/
def FS : Type := String → Option Nat

/-- `os.path.samefile(a, b)`: stat both paths and compare identities;
raises `OSError` (modelled `.error ()`) when either path is missing. -/
def samefile (fs : FS) (a b : String) : Except Unit Bool :=
  match fs a, fs b with
  | some i, some j => .ok (decide (i = j))
  | _, _ => .error ()

/-- `_path_check(file, file_list)` (lines 419-423): scan `file_list` in
order, returning `True` at the first `samefile` match and `False` when
the list is exhausted; an `OSError` raised by `samefile` propagates. -/
def path_check (fs : FS) (file : String) : List String → Except Unit Bool
  | [] => .ok false
  | item :: rest => do
      let b ← samefile fs file item
      if b then pure true else path_check fs file rest

/-- The comprehension at line 487,
`[item for item in items_all if not _path_check(item, items_done)]`,
with errors propagating out of the constructor. -/
def pendingFilter (fs : FS) (items_done : List String) :
    List String → Except Unit (List String)
  | [] => .ok []
  | x :: xs => do
      let b ← path_check fs x items_done
      let rest ← pendingFilter fs items_done xs
      pure (if b then rest else x :: rest)

/-- The `limit` truncation (lines 491-492): `if limit:` is Python
truthiness, so `limit = 0` (like `None`) applies no truncation;
otherwise `self.items = self.items[0:limit]`. -/
def applyLimit (limit : Option Nat) (items : List String) : List String :=
  match limit with
  | some n => if n = 0 then items else items.take n
  | none => items

/-- Python list slice `l[s : e]` for non-negative bounds. -/
def pySlice (l : List String) (s e : Nat) : List String :=
  (l.drop s).take (e - s)

/-- The pending-item computation of `Streamer.__init__` (lines 473-495):
with `file_range = (start_file, end_file)` supplied it is the slice
`items_all[start_file : end_file + 1]` (ends inclusive), with no
checkpoint filtering and no limit; otherwise it is `items_all` minus the
`_path_check`-matched checkpointed items, truncated by `limit`. -/
def streamerItems (fs : FS) (items_all items_done : List String)
    (limit : Option Nat) (file_range : Option (Nat × Nat)) :
    Except Unit (List String) :=
  match file_range with
  | some (s, e) => .ok (pySlice items_all s (e + 1))
  | none => do
      let pending ← pendingFilter fs items_done items_all
      pure (applyLimit limit pending)

/-- Under a well-behaved filesystem — `x` and every checkpointed path
exist, and no checkpointed path other than `x` itself aliases `x` —
`_path_check` is exactly list membership. -/
theorem path_check_eq_contains (fs : FS) (x : String) (done : List String)
    (hx : (fs x).isSome)
    (hdone : ∀ d ∈ done, (fs d).isSome)
    (hinj : ∀ d ∈ done, fs d = fs x → d = x) :
    path_check fs x done = .ok (done.contains x) := by
  induction done with
  | nil => rfl
  | cons d rest ih =>
      obtain ⟨i, hi⟩ := Option.isSome_iff_exists.mp hx
      obtain ⟨j, hj⟩ := Option.isSome_iff_exists.mp (hdone d (List.mem_cons_self d rest))
      have hbind : path_check fs x (d :: rest)
          = (if (decide (i = j)) = true then pure true else path_check fs x rest) := by
        simp only [path_check, samefile, hi, hj]
        rfl
      by_cases hij : i = j
      · have hdx : d = x := hinj d (List.mem_cons_self d rest) (by rw [hj, hi, hij])
        rw [hbind]
        subst hdx
        simp [hij, List.contains_cons, Pure.pure, Except.pure]
      · have hdx : d ≠ x := by
          intro h
          apply hij
          have hfd : fs d = fs x := by rw [h]
          rw [hi, hj] at hfd
          exact (Option.some_inj.mp hfd).symm
        have hxd : (x == d) = false := beq_eq_false_iff_ne.mpr (fun h => hdx h.symm)
        have hrest := ih (fun e he => hdone e (List.mem_cons_of_mem d he))
          (fun e he hfe => hinj e (List.mem_cons_of_mem d he) hfe)
        rw [hbind]
        simp [hij, List.contains_cons, hxd, hrest]
        exact fun h => absurd h.symm hdx

theorem pendingFilter_eq_filter (fs : FS) (all done : List String)
    (hall : ∀ x ∈ all, (fs x).isSome)
    (hdone : ∀ d ∈ done, (fs d).isSome)
    (hinj : ∀ x ∈ all, ∀ d ∈ done, fs d = fs x → d = x) :
    pendingFilter fs done all = .ok (all.filter (fun x => !done.contains x)) := by
  induction all with
  | nil => rfl
  | cons x xs ih =>
      have hpc := path_check_eq_contains fs x done (hall x (List.mem_cons_self x xs))
        hdone (hinj x (List.mem_cons_self x xs))
      have hrest := ih (fun y hy => hall y (List.mem_cons_of_mem x hy))
        (fun y hy d hd => hinj y (List.mem_cons_of_mem x hy) d hd)
      simp only [pendingFilter, hpc, hrest]
      cases h : done.contains x
      · have hx' : x ∉ done := by simpa using h
        simp [Bind.bind, Except.bind, Pure.pure, Except.pure, List.filter_cons, hx', h]
      · have hx' : x ∈ done := by simpa using h
        simp [Bind.bind, Except.bind, Pure.pure, Except.pure, List.filter_cons, hx', h]

/-- With an empty checkpoint list, `_path_check` never calls `samefile`
at all, so the filter succeeds and keeps every candidate — whether or
not any path exists. -/
theorem pendingFilter_nil_done (fs : FS) (all : List String) :
    pendingFilter fs [] all = .ok all := by
  induction all with
  | nil => rfl
  | cons x xs ih =>
      simp [pendingFilter, path_check, ih, Bind.bind, Except.bind, Pure.pure,
        Except.pure]

/-- A missing candidate path makes `_path_check` raise as soon as the
checkpoint list is non-empty. -/
theorem path_check_error_of_missing_file (fs : FS) (x d : String)
    (rest : List String) (hx : fs x = none) :
    path_check fs x (d :: rest) = .error () := by
  simp only [path_check, samefile, hx]
  rfl

/-- A missing path at the head of the checkpoint list makes
`_path_check` raise for any candidate. -/
theorem path_check_error_of_missing_head (fs : FS) (x d : String)
    (rest : List String) (hd : fs d = none) :
    path_check fs x (d :: rest) = .error () := by
  simp only [path_check, samefile, hd]
  cases hfx : fs x <;> rfl

theorem pendingFilter_error_of_missing (fs : FS) (done : List String)
    (hd : done ≠ []) :
    ∀ all, (∃ x ∈ all, fs x = none) → pendingFilter fs done all = .error () := by
  intro all
  induction all with
  | nil =>
      rintro ⟨x, hx, _⟩
      simp at hx
  | cons a as ih =>
      rintro ⟨x, hx, hxn⟩
      obtain ⟨d, rest, rfl⟩ : ∃ d rest, done = d :: rest := by
        cases done with
        | nil => exact absurd rfl hd
        | cons d r => exact ⟨d, r, rfl⟩
      rcases List.mem_cons.mp hx with rfl | hmem
      · rw [pendingFilter, path_check_error_of_missing_file fs x d rest hxn]
        rfl
      · cases hc : path_check fs a (d :: rest) with
        | error e =>
            rw [pendingFilter, hc]
            rfl
        | ok b =>
            rw [pendingFilter, hc]
            have herr := ih ⟨x, hmem, hxn⟩
            simp [herr, Bind.bind, Except.bind]

/-- A concrete full item list of 10 identifiers, in enumeration order. -/
def items10 : List String :=
  ["i0", "i1", "i2", "i3", "i4", "i5", "i6", "i7", "i8", "i9"]

/-! ## The transform: `COGNetCDF.datasets_to_cog` (lines 265-290)

For each dataset prefix of the NetCDF file, the code tries
`mkdir dest` in its own `try`; on failure it logs and skips the
conversion of that prefix (the `else` branch is not executed), on
success it runs `_dataset_to_yaml` — whose exceptions are NOT caught
anywhere in `datasets_to_cog` — and `_dataset_to_cog`, which catches
and logs its own per-band conversion failures internally.  At the end
the function returns `file` unconditionally, so a worker submitted by
`Streamer.compute` yields the item identifier back even when every
prefix failed; only an uncaught exception (e.g. from the YAML step)
escapes through `future.result()` and kills the producer thread. -/

/-- Oracles for the external effects of the transform: the dataset
prefixes of a NetCDF file (`JobControl.get_unstacked_names`, which reads
the file's time axis), whether `mkdir dest` succeeds for a destination
sub-directory, and whether the YAML-write step raises for it. -/
structure TransformEnv where
  unstacked : String → List String
  mkdirOk : String → Bool
  yamlRaises : String → Bool

/-- The per-prefix loop of `datasets_to_cog` (lines 277-289), returning
the prefixes whose `mkdir` failed (logged and skipped), or `.error ()`
when an uncaught YAML exception escapes. -/
def datasets_to_cog_go (env : TransformEnv) (dest_dir : String) :
    List String → Except Unit (List String)
  | [] => .ok []
  | p :: rest =>
      let dest := dest_dir ++ "/" ++ p
      if env.mkdirOk dest then
        if env.yamlRaises dest then .error ()
        else datasets_to_cog_go env dest_dir rest
      else do
        let l ← datasets_to_cog_go env dest_dir rest
        pure (p :: l)

/-- `COGNetCDF.datasets_to_cog(product, job_control, file, dest_dir)`:
process every prefix of `file` and return `file` itself (the value the
producer enqueues), together with the list of prefixes whose staging
`mkdir` failed; `.error ()` models an uncaught exception. -/
def datasets_to_cog (env : TransformEnv) (file dest_dir : String) :
    Except Unit (String × List String) :=
  (datasets_to_cog_go env dest_dir (env.unstacked file)).map (fun l => (file, l))

/-- Whenever `datasets_to_cog` returns at all, the value it returns is
the input item identifier itself — caught failures notwithstanding. -/
theorem datasets_to_cog_fst (env : TransformEnv) (file dest_dir : String)
    (r : String × List String)
    (h : datasets_to_cog env file dest_dir = .ok r) : r.1 = file := by
  unfold datasets_to_cog at h
  cases hg : datasets_to_cog_go env dest_dir (env.unstacked file) with
  | error e => rw [hg] at h; cases h
  | ok l =>
      rw [hg] at h
      cases h
      rfl

theorem datasets_to_cog_go_ok (env : TransformEnv) (dest_dir : String)
    (prefixes : List String)
    (h : ∀ p ∈ prefixes, env.mkdirOk (dest_dir ++ "/" ++ p) = true →
      env.yamlRaises (dest_dir ++ "/" ++ p) = false) :
    datasets_to_cog_go env dest_dir prefixes
      = .ok (prefixes.filter (fun p => !env.mkdirOk (dest_dir ++ "/" ++ p))) := by
  induction prefixes with
  | nil => rfl
  | cons p rest ih =>
      have hrest := ih (fun q hq => h q (List.mem_cons_of_mem p hq))
      cases hm : env.mkdirOk (dest_dir ++ "/" ++ p) with
      | true =>
          have hy := h p (List.mem_cons_self p rest) hm
          simp [datasets_to_cog_go, hm, hy, hrest, List.filter_cons]
      | false =>
          simp [datasets_to_cog_go, hm, hrest, List.filter_cons, Bind.bind,
            Except.bind, Pure.pure, Except.pure]

/-! ## The producer/consumer protocol: `Streamer.compute` (509-519),
`Streamer.upload` (521-535) and `Streamer.run` (537-548)

Modelled as a labelled-transition system over a state carrying the
producer's pending list and in-flight dispatch batch, the bounded
hand-off queue (`Queue(maxsize=MAX_QUEUE_SIZE)`), the consumer's drained
batch, and ghost observables (number of sentinel `put`s, whether the
consumer has processed the sentinel, the publish-dispatch order).

Producer (`compute`): while `self.items` is non-empty, compute
`run_size = min(MAX_QUEUE_SIZE - qsize, len(items))`, pop that many
items off the END of the list (`self.items.pop()`), and as each worker
completes (`as_completed`, any order) `put` its returned identifier;
when the list is empty, `put(None)` once and terminate.  A `put` on the
full queue blocks, which the transition system renders as a guard; an
uncaught worker exception re-raised by `future.result()` kills the
thread (state `crashed`).

Consumer (`upload`): evaluate `qsize()` first — when it is zero the
body drains nothing and loops (a busy spin, no dequeue); otherwise it
`get`s exactly that snapshot of entries, then processes the batch from
the front (`items_todo.pop(0)`), dispatching `upload_to_s3` per item
and returning (after `wait(futures)`) upon the sentinel `None`. -/

inductive PState where
  | loop
  | await
  | done
  | crashed
  deriving Repr, DecidableEq

inductive CState where
  | top
  | processing (batch : List (Option String))
  | done
  deriving Repr, DecidableEq

structure MState where
  items : List String
  inflight : List String
  queue : List (Option String)
  pstate : PState
  cstate : CState
  sentPut : Nat
  consumedSentinel : Bool
  published : List String
  deriving Repr, DecidableEq

/-- Lines 513-514: `queue_capacity = MAX_QUEUE_SIZE - qsize();
run_size = queue_capacity if len(items) > queue_capacity else len(items)`. -/
def runSize (s : MState) : Nat :=
  min (MAX_QUEUE_SIZE - s.queue.length) s.items.length

/-- Line 515-516: pop `run_size` items off the end of `self.items` and
hand them to the worker pool. -/
def dispatchResult (s : MState) : MState :=
  { s with
      items := s.items.take (s.items.length - runSize s)
      inflight := (s.items.drop (s.items.length - runSize s)).reverse
      pstate := .await }

inductive Step (env : TransformEnv) (dest : String) : MState → MState → Prop
  | dispatch (s : MState) (h : s.pstate = .loop) (hne : s.items ≠ []) :
      Step env dest s (dispatchResult s)
  | completeOk (s : MState) (x v : String) (log : List String)
      (h : s.pstate = .await) (hx : x ∈ s.inflight)
      (hr : datasets_to_cog env x dest = .ok (v, log)) :
      Step env dest s { s with
        inflight := s.inflight.erase x
        queue := s.queue ++ [some v] }
  | completeCrash (s : MState) (x : String)
      (h : s.pstate = .await) (hx : x ∈ s.inflight)
      (hr : datasets_to_cog env x dest = .error ()) :
      Step env dest s { s with pstate := .crashed }
  | batchDone (s : MState) (h : s.pstate = .await) (hi : s.inflight = []) :
      Step env dest s { s with pstate := .loop }
  | sentinel (s : MState) (h : s.pstate = .loop) (hi : s.items = [])
      (hq : s.queue.length < MAX_QUEUE_SIZE) :
      Step env dest s { s with
        queue := s.queue ++ [none]
        sentPut := s.sentPut + 1
        pstate := .done }
  | drain (s : MState) (h : s.cstate = .top) (hq : s.queue ≠ []) :
      Step env dest s { s with cstate := .processing s.queue, queue := [] }
  | spin (s : MState) (h : s.cstate = .top) (hq : s.queue = []) :
      Step env dest s s
  | procItem (s : MState) (x : String) (b : List (Option String))
      (h : s.cstate = .processing (some x :: b)) :
      Step env dest s { s with
        cstate := .processing b
        published := s.published ++ [x] }
  | procSentinel (s : MState) (b : List (Option String))
      (h : s.cstate = .processing (none :: b)) :
      Step env dest s { s with cstate := .done, consumedSentinel := true }
  | procEnd (s : MState) (h : s.cstate = .processing []) :
      Step env dest s { s with cstate := .top }

/-- The state at the start of `Streamer.run`: the pending items are
loaded, nothing dispatched, the queue empty, both threads at the top of
their loops. -/
def initState (items0 : List String) : MState :=
  { items := items0
    inflight := []
    queue := []
    pstate := .loop
    cstate := .top
    sentPut := 0
    consumedSentinel := false
    published := [] }

def Reachable (env : TransformEnv) (dest : String) (items0 : List String)
    (s : MState) : Prop :=
  Relation.ReflTransGen (Step env dest) (initState items0) s

/-- Number of sentinel entries in a queue fragment. -/
def noneCount (l : List (Option String)) : Nat :=
  (l.filter (fun e => e.isNone)).length

/-- Sentinels currently inside the consumer's drained batch. -/
def batchNones (s : MState) : Nat :=
  match s.cstate with
  | .processing b => noneCount b
  | _ => 0

/-- Every sentinel ever enqueued is in the queue, in the drained batch,
or already consumed. -/
def sentinelCount (s : MState) : Nat :=
  noneCount s.queue + batchNones s + (if s.consumedSentinel then 1 else 0)

/-- The inductive invariant of the protocol. -/
structure Inv (s : MState) : Prop where
  hq : s.queue.length ≤ MAX_QUEUE_SIZE
  hawait : s.pstate = .await → s.queue.length + s.inflight.length ≤ MAX_QUEUE_SIZE
  hloop : s.pstate = .loop → s.inflight = []
  hsent : s.sentPut ≤ 1
  hdone : s.pstate = .done ↔ s.sentPut = 1
  hcons : s.cstate = .done ↔ s.consumedSentinel = true
  hitems : s.pstate = .done → s.items = []
  hcrash : s.pstate = .crashed → s.sentPut = 0
  hcount : sentinelCount s ≤ s.sentPut

theorem noneCount_append (a b : List (Option String)) :
    noneCount (a ++ b) = noneCount a + noneCount b := by
  simp [noneCount, List.filter_append]

theorem inv_init (items0 : List String) : Inv (initState items0) := by
  refine ⟨?_, ?_, ?_, ?_, ?_, ?_, ?_, ?_, ?_⟩ <;>
    simp [initState, sentinelCount, batchNones, noneCount, MAX_QUEUE_SIZE]

theorem inv_step (env : TransformEnv) (dest : String) {s s' : MState}
    (hstep : Step env dest s s') (hinv : Inv s) : Inv s' := by
  obtain ⟨hq, hawait, hloop, hsent, hdone, hcons, hitems, hcrash, hcount⟩ := hinv
  cases hstep with
  | dispatch h hne =>
      refine ⟨?_, ?_, ?_, ?_, ?_, ?_, ?_, ?_, ?_⟩
      · simpa [dispatchResult] using hq
      · intro _
        simp only [dispatchResult, runSize, List.length_reverse, List.length_drop]
        omega
      · intro h'
        simp [dispatchResult] at h'
      · simpa [dispatchResult] using hsent
      · simp only [dispatchResult]
        constructor
        · intro h'
          simp at h'
        · intro h1
          have hd := hdone.mpr h1
          rw [h] at hd
          cases hd
      · simpa [dispatchResult] using hcons
      · intro h'
        simp [dispatchResult] at h'
      · intro h'
        simp [dispatchResult] at h'
      · simpa [sentinelCount, batchNones, noneCount, dispatchResult] using hcount
  | completeOk x v log h hx hr =>
      have hlen : (s.inflight.erase x).length = s.inflight.length - 1 :=
        List.length_erase_of_mem hx
      have hpos : 0 < s.inflight.length :=
        List.length_pos.mpr (List.ne_nil_of_mem hx)
      have hcap := hawait h
      refine ⟨?_, ?_, ?_, ?_, ?_, ?_, ?_, ?_, ?_⟩
      · show (s.queue ++ [some v]).length ≤ MAX_QUEUE_SIZE
        simp only [List.length_append, List.length_cons, List.length_nil]
        omega
      · intro _
        show (s.queue ++ [some v]).length + (s.inflight.erase x).length
          ≤ MAX_QUEUE_SIZE
        rw [hlen]
        simp only [List.length_append, List.length_cons, List.length_nil]
        omega
      · intro h'
        simp [h] at h'
      · exact hsent
      · exact hdone
      · exact hcons
      · exact hitems
      · exact hcrash
      · show sentinelCount { s with
            inflight := s.inflight.erase x
            queue := s.queue ++ [some v] } ≤ s.sentPut
        simp only [sentinelCount, batchNones, noneCount_append] at hcount ⊢
        simpa [noneCount] using hcount
  | completeCrash x h hx hr =>
      have hne1 : s.sentPut ≠ 1 := by
        intro h1
        have hd := hdone.mpr h1
        rw [h] at hd
        cases hd
      have hs0 : s.sentPut = 0 := by omega
      refine ⟨hq, ?_, ?_, hsent, ?_, hcons, ?_, ?_, ?_⟩
      · intro h'
        simp at h'
      · intro h'
        simp at h'
      · constructor
        · intro h'
          simp at h'
        · intro h1
          exact absurd h1 hne1
      · intro h'
        simp at h'
      · intro _
        exact hs0
      · simpa [sentinelCount, batchNones, noneCount] using hcount
  | batchDone h hi =>
      have hne1 : s.sentPut ≠ 1 := by
        intro h1
        have hd := hdone.mpr h1
        rw [h] at hd
        cases hd
      refine ⟨hq, ?_, ?_, hsent, ?_, hcons, ?_, ?_, ?_⟩
      · intro h'
        simp at h'
      · intro _
        exact hi
      · constructor
        · intro h'
          simp at h'
        · intro h1
          exact absurd h1 hne1
      · intro h'
        simp at h'
      · intro h'
        simp at h'
      · simpa [sentinelCount, batchNones, noneCount] using hcount
  | sentinel h hi hql =>
      have hne1 : s.sentPut ≠ 1 := by
        intro h1
        have hd := hdone.mpr h1
        rw [h] at hd
        cases hd
      refine ⟨?_, ?_, ?_, ?_, ?_, hcons, ?_, ?_, ?_⟩
      · show (s.queue ++ [none]).length ≤ MAX_QUEUE_SIZE
        simp only [List.length_append, List.length_cons, List.length_nil]
        omega
      · intro h'
        simp at h'
      · intro h'
        simp at h'
      · show s.sentPut + 1 ≤ 1
        omega
      · show PState.done = PState.done ↔ s.sentPut + 1 = 1
        simp
        omega
      · intro _
        exact hi
      · intro h'
        simp at h'
      · show sentinelCount { s with
            queue := s.queue ++ [none]
            sentPut := s.sentPut + 1
            pstate := .done } ≤ s.sentPut + 1
        simp only [sentinelCount, batchNones, noneCount_append] at hcount ⊢
        simp only [noneCount, List.filter] at hcount ⊢
        simp at hcount ⊢
        omega
  | drain h hqne =>
      refine ⟨?_, ?_, hloop, hsent, hdone, ?_, hitems, hcrash, ?_⟩
      · show ([] : List (Option String)).length ≤ MAX_QUEUE_SIZE
        simp [MAX_QUEUE_SIZE]
      · intro ha
        have := hawait ha
        show ([] : List (Option String)).length + s.inflight.length ≤ MAX_QUEUE_SIZE
        simp only [List.length_nil, Nat.zero_add]
        omega
      · constructor
        · intro h'
          simp at h'
        · intro hc
          have hcd := hcons.mpr hc
          rw [h] at hcd
          cases hcd
      · show sentinelCount { s with cstate := .processing s.queue, queue := [] }
          ≤ s.sentPut
        simp only [sentinelCount, batchNones, h, noneCount] at hcount ⊢
        simp at hcount ⊢
        omega
  | spin h hq' =>
      exact ⟨hq, hawait, hloop, hsent, hdone, hcons, hitems, hcrash, hcount⟩
  | procItem x b h =>
      refine ⟨hq, hawait, hloop, hsent, hdone, ?_, hitems, hcrash, ?_⟩
      · constructor
        · intro h'
          simp at h'
        · intro hc
          have hcd := hcons.mpr hc
          rw [h] at hcd
          cases hcd
      · show sentinelCount { s with
            cstate := .processing b
            published := s.published ++ [x] } ≤ s.sentPut
        simp only [sentinelCount, batchNones, h, noneCount, List.filter] at hcount ⊢
        simpa using hcount
  | procSentinel b h =>
      refine ⟨hq, hawait, hloop, hsent, hdone, ?_, hitems, hcrash, ?_⟩
      · simp
      · show sentinelCount { s with cstate := .done, consumedSentinel := true }
          ≤ s.sentPut
        simp only [sentinelCount, batchNones, h, noneCount, List.filter] at hcount ⊢
        simp at hcount ⊢
        omega
  | procEnd h =>
      refine ⟨hq, hawait, hloop, hsent, hdone, ?_, hitems, hcrash, ?_⟩
      · constructor
        · intro h'
          simp at h'
        · intro hc
          have hcd := hcons.mpr hc
          rw [h] at hcd
          cases hcd
      · show sentinelCount { s with cstate := .top } ≤ s.sentPut
        simp only [sentinelCount, batchNones, h, noneCount, List.filter] at hcount ⊢
        simpa using hcount

theorem inv_reachable (env : TransformEnv) (dest : String)
    (items0 : List String) {s : MState}
    (h : Reachable env dest items0 s) : Inv s := by
  induction h with
  | refl => exact inv_init items0
  | tail _ hstep ih => exact inv_step env dest hstep ih

/-- Once the producer thread has died on an uncaught transform
exception, it stays dead: no rule re-enables it. -/
theorem step_crashed {env : TransformEnv} {dest : String} {s s' : MState}
    (hstep : Step env dest s s') (hc : s.pstate = .crashed) :
    s'.pstate = .crashed := by
  cases hstep with
  | dispatch h _ => rw [h] at hc; cases hc
  | completeOk x v log h hx hr => exact hc
  | completeCrash x h hx hr => rfl
  | batchDone h _ => rw [h] at hc; cases hc
  | sentinel h _ _ => rw [h] at hc; cases hc
  | drain _ _ => exact hc
  | spin _ _ => exact hc
  | procItem _ _ _ => exact hc
  | procSentinel _ _ => exact hc
  | procEnd _ => exact hc

theorem reach_crashed {env : TransformEnv} {dest : String} {s t : MState}
    (h : Relation.ReflTransGen (Step env dest) s t)
    (hc : s.pstate = .crashed) : t.pstate = .crashed := by
  induction h with
  | refl => exact hc
  | tail _ hstep ih => exact step_crashed hstep ih

/-- A transform environment in which every external step succeeds. -/
def benignEnv : TransformEnv :=
  { unstacked := fun _ => ["p1"]
    mkdirOk := fun _ => true
    yamlRaises := fun _ => false }

/-- A transform environment whose YAML-write step raises — the one
failure `datasets_to_cog` does not catch. -/
def c2Env : TransformEnv :=
  { unstacked := fun _ => ["p1"]
    mkdirOk := fun _ => true
    yamlRaises := fun _ => true }

/-- State of the run on the single item `"f1"` after the producer
dispatched it and its worker raised through `future.result()`. -/
def c2CrashState : MState :=
  { items := []
    inflight := ["f1"]
    queue := []
    pstate := .crashed
    cstate := .top
    sentPut := 0
    consumedSentinel := false
    published := [] }

theorem c2_crash_reachable : Reachable c2Env "dest" ["f1"] c2CrashState := by
  have h1 : Step c2Env "dest" (initState ["f1"])
      (dispatchResult (initState ["f1"])) :=
    Step.dispatch _ rfl (by decide)
  have heq : dispatchResult (initState ["f1"])
      = { items := [], inflight := ["f1"], queue := [], pstate := .await,
          cstate := .top, sentPut := 0, consumedSentinel := false,
          published := [] } := by decide
  have h2 : Step c2Env "dest"
      ({ items := [], inflight := ["f1"], queue := [], pstate := .await,
         cstate := .top, sentPut := 0, consumedSentinel := false,
         published := [] } : MState) c2CrashState :=
    Step.completeCrash _ "f1" rfl (by simp) rfl
  exact Relation.ReflTransGen.head h1
    (by rw [heq]; exact Relation.ReflTransGen.head h2 Relation.ReflTransGen.refl)

/-- A transform environment in which the staging `mkdir` fails for every
prefix: the caught, logged kind of transform failure. -/
def c6Env : TransformEnv :=
  { unstacked := fun _ => ["p1"]
    mkdirOk := fun _ => false
    yamlRaises := fun _ => false }

/-- State of the run on the single item `"f1"` after its (failed)
transform completed and the producer enqueued its identifier. -/
def c6FinalState : MState :=
  { items := []
    inflight := []
    queue := [some "f1"]
    pstate := .await
    cstate := .top
    sentPut := 0
    consumedSentinel := false
    published := [] }

/-! ## Signature-scoped file names (`Streamer.__init__`, lines 431-443
and 473-495)

The checkpoint log (`streamer_job_control_<signature>.log`) and the
full-item-list cache (`items_all_<signature>.log`) append `_<year>` only
when `year` is truthy and `_<month>` only when `year and month` is
truthy (Python truthiness: `None` and `0` are falsy).  The non-range
staging sub-directory is `product + '_single_run'` — year and month do
not enter it at all. -/

/-- One decimal digit character. -/
def digitChar (d : Nat) : Char :=
  if d = 0 then '0' else if d = 1 then '1' else if d = 2 then '2'
  else if d = 3 then '3' else if d = 4 then '4' else if d = 5 then '5'
  else if d = 6 then '6' else if d = 7 then '7' else if d = 8 then '8'
  else '9'

/-- Python `str(n)` for a non-negative integer: decimal digits, most
significant first. -/
def natStr (n : Nat) : String :=
  if n = 0 then "0" else ⟨(Nat.digits 10 n).reverse.map digitChar⟩

theorem digitChar_ne_underscore (d : Nat) : digitChar d ≠ '_' := by
  unfold digitChar
  split_ifs <;> decide

theorem digitChar_inj {d e : Nat} (hd : d < 10) (he : e < 10) :
    digitChar d = digitChar e → d = e := by
  interval_cases d <;> interval_cases e <;> decide

theorem natStr_data_ne_underscore (n : Nat) :
    ∀ c ∈ (natStr n).data, c ≠ '_' := by
  intro c hc
  unfold natStr at hc
  by_cases hn : n = 0
  · simp [hn] at hc
    subst hc
    decide
  · simp [hn] at hc
    obtain ⟨d, hd, rfl⟩ := hc
    exact digitChar_ne_underscore d

theorem map_digitChar_inj (l1 : List Nat) :
    ∀ l2, (∀ x ∈ l1, x < 10) → (∀ x ∈ l2, x < 10) →
      l1.map digitChar = l2.map digitChar → l1 = l2 := by
  induction l1 with
  | nil =>
      intro l2 _ _ h
      cases l2 with
      | nil => rfl
      | cons b bs => simp at h
  | cons a as ih =>
      intro l2 h1 h2 h
      cases l2 with
      | nil => simp at h
      | cons b bs =>
          simp only [List.map_cons, List.cons.injEq] at h
          obtain ⟨hab, hrest⟩ := h
          have hab' : a = b :=
            digitChar_inj (h1 a (List.mem_cons_self a as))
              (h2 b (List.mem_cons_self b bs)) hab
          rw [hab', ih bs (fun x hx => h1 x (List.mem_cons_of_mem a hx))
            (fun x hx => h2 x (List.mem_cons_of_mem b hx)) hrest]

theorem natStr_ne_zero_str {n : Nat} (hn : n ≠ 0) : natStr n ≠ natStr 0 := by
  intro h
  have hd := congrArg String.data h
  simp only [natStr, hn, if_false, if_pos rfl] at hd
  have hd' : (Nat.digits 10 n).reverse.map digitChar = ['0'] := hd
  have hlen := congrArg List.length hd'
  simp only [List.length_map, List.length_reverse, List.length_cons,
    List.length_nil] at hlen
  obtain ⟨d, hdig⟩ := List.length_eq_one.mp hlen
  have hdn : n = d := by
    have hof := Nat.ofDigits_digits 10 n
    rw [hdig] at hof
    simpa [Nat.ofDigits] using hof.symm
  have hlast : d ≠ 0 := by omega
  have hd10 : d < 10 :=
    Nat.digits_lt_base (by norm_num) (by rw [hdig]; exact List.mem_singleton_self d)
  rw [hdig] at hd'
  simp only [List.reverse_cons, List.reverse_nil, List.nil_append,
    List.map_cons, List.map_nil, List.cons.injEq] at hd'
  exact hlast (digitChar_inj hd10 (by norm_num) (by simpa using hd'.1))

theorem natStr_inj {m n : Nat} (h : natStr m = natStr n) : m = n := by
  by_cases hm : m = 0 <;> by_cases hn : n = 0
  · omega
  · exact absurd h.symm (by subst hm; exact natStr_ne_zero_str hn)
  · exact absurd h (by subst hn; exact natStr_ne_zero_str hm)
  · have hd := congrArg String.data h
    simp only [natStr, hm, hn, if_false] at hd
    have hd' : (Nat.digits 10 m).reverse.map digitChar
        = (Nat.digits 10 n).reverse.map digitChar := hd
    have hrev := map_digitChar_inj (Nat.digits 10 m).reverse
      (Nat.digits 10 n).reverse
      (fun x hx => Nat.digits_lt_base (by norm_num) (List.mem_reverse.mp hx))
      (fun x hx => Nat.digits_lt_base (by norm_num) (List.mem_reverse.mp hx))
      hd'
    have hdig := List.reverse_injective hrev
    have := congrArg (Nat.ofDigits 10) hdig
    rwa [Nat.ofDigits_digits, Nat.ofDigits_digits] at this

/-- Lines 432-435 / 436-439: one of the two parallel `job_file` /
`items_all_file` concatenation chains, parameterised by its stem.
`job_file = stem + '_' + product`, then
`job_file = job_file + '_' + str(year) if year else job_file`, then
`job_file = job_file + '_' + str(month) if year and month else job_file`,
then `job_file = job_file + '.log'`. -/
def signatureLogName (stem product : String) (year month : Option Nat) :
    String :=
  let f := stem ++ "_" ++ product
  let f := match year with
    | some y => if y ≠ 0 then f ++ "_" ++ natStr y else f
    | none => f
  let f := match year, month with
    | some y, some m => if y ≠ 0 ∧ m ≠ 0 then f ++ "_" ++ natStr m else f
    | _, _ => f
  f ++ ".log"

/-- `'streamer_job_control' + '_' + product + ... + '.log'` (432-435). -/
def jobFileName (product : String) (year month : Option Nat) : String :=
  signatureLogName "streamer_job_control" product year month

/-- `'items_all' + '_' + product + ... + '.log'` (436-439). -/
def itemsAllFileName (product : String) (year month : Option Nat) : String :=
  signatureLogName "items_all" product year month

/-- Line 495: the non-range staging sub-directory under the queue root,
`product + '_single_run'`: the year and month of the signature are not
used. -/
def stagingSubdir (product : String) (_year _month : Option Nat) : String :=
  product ++ "_single_run"

/-- The (year, month) information that actually reaches the file name:
`none` when the year is absent or `0`; the month is kept only when the
year survives and the month is itself present and non-zero. -/
def normSig : Option Nat → Option Nat → Option (Nat × Option Nat)
  | some y, m =>
      if y = 0 then none
      else some (y, match m with
        | some mm => if mm = 0 then none else some mm
        | none => none)
  | none, _ => none

/-- The suffix the normalised signature contributes to the file name. -/
def sigSuffix : Option (Nat × Option Nat) → String
  | none => ""
  | some (y, none) => "_" ++ natStr y
  | some (y, some m) => "_" ++ natStr y ++ "_" ++ natStr m

theorem signatureLogName_eq (stem product : String) (year month : Option Nat) :
    signatureLogName stem product year month
      = stem ++ "_" ++ product ++ sigSuffix (normSig year month) ++ ".log" := by
  cases year with
  | none =>
      cases month <;>
        simp [signatureLogName, normSig, sigSuffix, String.append_assoc]
  | some y =>
      cases month with
      | none =>
          by_cases hy : y = 0 <;>
            simp [signatureLogName, normSig, sigSuffix, hy, String.append_assoc]
      | some m =>
          by_cases hy : y = 0 <;> by_cases hm : m = 0 <;>
            simp [signatureLogName, normSig, sigSuffix, hy, hm,
              String.append_assoc]

/-- Tokenisation: an underscore-free block followed by either nothing or
an underscore-led remainder determines both parts. -/
theorem digit_block_inj (a : List Char) :
    ∀ (b r1 r2 : List Char), (∀ c ∈ a, c ≠ '_') → (∀ c ∈ b, c ≠ '_') →
      (r1 = [] ∨ ∃ t, r1 = '_' :: t) → (r2 = [] ∨ ∃ t, r2 = '_' :: t) →
      a ++ r1 = b ++ r2 → a = b ∧ r1 = r2 := by
  induction a with
  | nil =>
      intro b r1 r2 _ hb hr1 hr2 h
      cases b with
      | nil => simpa using h
      | cons c bs =>
          rcases hr1 with rfl | ⟨t, rfl⟩
          · simp at h
          · exfalso
            simp only [List.nil_append, List.cons_append] at h
            have hc : c = '_' := by
              have := congrArg (fun l => l.head?) h
              simpa using this.symm
            exact hb c (List.mem_cons_self c bs) hc
  | cons c as ih =>
      intro b r1 r2 ha hb hr1 hr2 h
      cases b with
      | nil =>
          rcases hr2 with rfl | ⟨t, rfl⟩
          · simp at h
          · exfalso
            simp only [List.cons_append, List.nil_append] at h
            have hc : c = '_' := by
              have := congrArg (fun l => l.head?) h
              simpa using this
            exact ha c (List.mem_cons_self c as) hc
      | cons d bs =>
          simp only [List.cons_append, List.cons.injEq] at h
          obtain ⟨hcd, hrest⟩ := h
          obtain ⟨h1, h2⟩ := ih bs r1 r2
            (fun x hx => ha x (List.mem_cons_of_mem c hx))
            (fun x hx => hb x (List.mem_cons_of_mem d hx)) hr1 hr2 hrest
          exact ⟨by rw [hcd, h1], h2⟩

theorem sigSuffix_inj {o1 o2 : Option (Nat × Option Nat)}
    (h : sigSuffix o1 = sigSuffix o2) : o1 = o2 := by
  have hd := congrArg String.data h
  match o1, o2 with
  | none, none => rfl
  | none, some (y, mo) =>
      exfalso
      cases mo <;>
        simpa [sigSuffix, String.data_append] using congrArg List.length hd
  | some (y, mo), none =>
      exfalso
      cases mo <;>
        simpa [sigSuffix, String.data_append] using congrArg List.length hd
  | some (y1, none), some (y2, none) =>
      have hdl : ('_' :: (natStr y1).data) = ('_' :: (natStr y2).data) := by
        simpa [sigSuffix, String.data_append] using hd
      have : (natStr y1).data = (natStr y2).data := by
        injection hdl
      rw [natStr_inj (String.ext this)]
  | some (y1, none), some (y2, some m2) =>
      exfalso
      have hdl : ('_' :: ((natStr y1).data ++ []))
          = ('_' :: ((natStr y2).data ++ ('_' :: (natStr m2).data))) := by
        simpa [sigSuffix, String.data_append] using hd
      have hdl' : (natStr y1).data ++ []
          = (natStr y2).data ++ ('_' :: (natStr m2).data) := by
        injection hdl
      obtain ⟨_, h2⟩ := digit_block_inj (natStr y1).data (natStr y2).data _ _
        (natStr_data_ne_underscore y1) (natStr_data_ne_underscore y2)
        (Or.inl rfl) (Or.inr ⟨(natStr m2).data, rfl⟩) hdl'
      cases h2
  | some (y1, some m1), some (y2, none) =>
      exfalso
      have hdl : ('_' :: ((natStr y1).data ++ ('_' :: (natStr m1).data)))
          = ('_' :: ((natStr y2).data ++ [])) := by
        simpa [sigSuffix, String.data_append] using hd
      have hdl' : (natStr y1).data ++ ('_' :: (natStr m1).data)
          = (natStr y2).data ++ [] := by
        injection hdl
      obtain ⟨_, h2⟩ := digit_block_inj (natStr y1).data (natStr y2).data _ _
        (natStr_data_ne_underscore y1) (natStr_data_ne_underscore y2)
        (Or.inr ⟨(natStr m1).data, rfl⟩) (Or.inl rfl) hdl'
      cases h2
  | some (y1, some m1), some (y2, some m2) =>
      have hdl : ('_' :: ((natStr y1).data ++ ('_' :: (natStr m1).data)))
          = ('_' :: ((natStr y2).data ++ ('_' :: (natStr m2).data))) := by
        simpa [sigSuffix, String.data_append] using hd
      have hdl' : (natStr y1).data ++ ('_' :: (natStr m1).data)
          = (natStr y2).data ++ ('_' :: (natStr m2).data) := by
        injection hdl
      obtain ⟨h1, h2⟩ := digit_block_inj (natStr y1).data (natStr y2).data _ _
        (natStr_data_ne_underscore y1) (natStr_data_ne_underscore y2)
        (Or.inr ⟨(natStr m1).data, rfl⟩) (Or.inr ⟨(natStr m2).data, rfl⟩) hdl'
      have hm : (natStr m1).data = (natStr m2).data := by injection h2
      rw [natStr_inj (String.ext h1), natStr_inj (String.ext hm)]

/-- Distinct normalised signatures give distinct log file names (for a
fixed stem and product). -/
theorem signatureLogName_inj (stem product : String)
    {y1 m1 y2 m2 : Option Nat} (hne : normSig y1 m1 ≠ normSig y2 m2) :
    signatureLogName stem product y1 m1 ≠ signatureLogName stem product y2 m2 := by
  intro heq
  rw [signatureLogName_eq, signatureLogName_eq] at heq
  apply hne
  apply sigSuffix_inj
  have hd := congrArg String.data heq
  simp only [String.data_append] at hd
  have hd' := List.append_cancel_right hd
  have hd'' : (sigSuffix (normSig y1 m1)).data
      = (sigSuffix (normSig y2 m2)).data := by
    simpa [List.append_assoc] using hd'
  exact String.ext hd''

theorem c6_enqueued_reachable : Reachable c6Env "dest" ["f1"] c6FinalState := by
  have h1 : Step c6Env "dest" (initState ["f1"])
      (dispatchResult (initState ["f1"])) :=
    Step.dispatch _ rfl (by decide)
  have heq : dispatchResult (initState ["f1"])
      = { items := [], inflight := ["f1"], queue := [], pstate := .await,
          cstate := .top, sentPut := 0, consumedSentinel := false,
          published := [] } := by decide
  have h2 : Step c6Env "dest"
      ({ items := [], inflight := ["f1"], queue := [], pstate := .await,
         cstate := .top, sentPut := 0, consumedSentinel := false,
         published := [] } : MState) c6FinalState :=
    Step.completeOk _ "f1" "f1" ["p1"] rfl (by simp) rfl
  exact Relation.ReflTransGen.head h1
    (by rw [heq]; exact Relation.ReflTransGen.head h2 Relation.ReflTransGen.refl)

end Streamer

/-- C4: the checkpoint append of `upload_to_s3` is guarded by the
all-or-nothing `success` flag accumulated across all of the item's
per-artifact steps: the item's identifier is appended iff every step of
every artifact succeeded; if any step for the item fails, the append is
skipped. -/
theorem C4_checkpoint_guarded_by_all_or_nothing_success
    (env : Streamer.UploadEnv) (prefixes : List String)
    (file src_dir dest : String) :
    (Streamer.upload_to_s3 env prefixes file src_dir dest).appended
      = (if prefixes.all (Streamer.prefixStepsOk env src_dir dest)
          then [file] else []) :=
  Streamer.upload_to_s3_appended env prefixes file src_dir dest

/-- C5 counterexample: with the `aws s3 sync` step failing and the
removal commands succeeding, `upload_to_s3` reports failure and appends
nothing to the checkpoint log, yet the item's staging sub-directory
`queue/run/p1` is removed — the claim that a failed publish leaves the
staging sub-directory in place (removal only on a fully successful
publish) is false on the code, because the `rm -fR src` step (lines
157-164) runs unconditionally after the sync step. -/
theorem C5_counterexample_staging_removed_despite_failed_publish :
    (Streamer.upload_to_s3 Streamer.c5Env ["p1"] "item1.nc" "queue/run" "s3dest").success
        = false
    ∧ (Streamer.upload_to_s3 Streamer.c5Env ["p1"] "item1.nc" "queue/run" "s3dest").appended
        = []
    ∧ (Streamer.upload_to_s3 Streamer.c5Env ["p1"] "item1.nc" "queue/run" "s3dest").removed
        = ["queue/run/p1"] := by
  refine ⟨rfl, rfl, rfl⟩

/-- C5 amended: on any publish failure the consumer logs at least one
error and does not checkpoint the item, but the staging sub-directory
removal is attempted unconditionally for every artifact prefix — each
prefix's staging sub-directory is removed exactly when its removal
command succeeds, independently of whether the upload succeeded; it is
left in place (forensic residue) only when the removal command itself
fails. -/
theorem C5_amended_failure_not_checkpointed_removal_unconditional
    (env : Streamer.UploadEnv) (prefixes : List String)
    (file src_dir dest : String) :
    ((Streamer.upload_to_s3 env prefixes file src_dir dest).success = false →
        (Streamer.upload_to_s3 env prefixes file src_dir dest).appended = []
        ∧ 1 ≤ (Streamer.upload_to_s3 env prefixes file src_dir dest).errors)
    ∧ (Streamer.upload_to_s3 env prefixes file src_dir dest).removed
        = prefixes.filterMap (fun p =>
            if env.rmDirOk (src_dir ++ "/" ++ p) then some (src_dir ++ "/" ++ p)
            else none) := by
  constructor
  · intro hf
    rw [Streamer.upload_to_s3_success] at hf
    constructor
    · rw [Streamer.upload_to_s3_appended, hf]
      simp
    · rw [Streamer.upload_to_s3_errors]
      have hf' : ∃ x ∈ prefixes, ¬ Streamer.prefixStepsOk env src_dir dest x = true := by
        simpa [List.all_eq_false] using hf
      obtain ⟨p, hp, hpf⟩ := hf'
      calc 1 ≤ Streamer.prefixFailCount env src_dir dest p :=
            Streamer.prefixStepsOk_false_failCount env src_dir dest p
              (by simpa using hpf)
        _ ≤ (prefixes.map (Streamer.prefixFailCount env src_dir dest)).sum :=
            List.single_le_sum (fun x _ => Nat.zero_le x) _
              (List.mem_map_of_mem _ hp)
  · exact Streamer.upload_to_s3_removed env prefixes file src_dir dest

/-- C5 amended, witnessed at the concrete failing-sync environment. -/
theorem C5_amended_witness :
    ((Streamer.upload_to_s3 Streamer.c5Env ["p1"] "item1.nc" "q" "d").appended = []
      ∧ 1 ≤ (Streamer.upload_to_s3 Streamer.c5Env ["p1"] "item1.nc" "q" "d").errors)
    ∧ (Streamer.upload_to_s3 Streamer.c5Env ["p1"] "item1.nc" "q" "d").removed
        = ["p1"].filterMap (fun p =>
            if Streamer.c5Env.rmDirOk ("q" ++ "/" ++ p) then some ("q" ++ "/" ++ p)
            else none) :=
  ⟨(C5_amended_failure_not_checkpointed_removal_unconditional
      Streamer.c5Env ["p1"] "item1.nc" "q" "d").1 rfl,
   (C5_amended_failure_not_checkpointed_removal_unconditional
      Streamer.c5Env ["p1"] "item1.nc" "q" "d").2⟩

/-- C1 counterexample: the claim quantifies over every optional limit
`n`, but `streamer.py` line 491 guards the truncation with Python
truthiness (`if limit:`), so a supplied limit of `0` applies no
truncation at all: with a full list of 10 items and an empty checkpoint
log, limit `0` yields all 10 pending items instead of the claimed
head-truncation to at most `0` items. -/
theorem C1_counterexample_limit_zero_not_truncated :
    Streamer.streamerItems (fun _ => some 0) Streamer.items10 [] (some 0) none
        = .ok Streamer.items10
    ∧ Streamer.items10.length = 10 := ⟨rfl, rfl⟩

/-- C1 amended: for every full item list, checkpointed set and *positive*
limit `n` (a limit of `0` behaves like no limit under the code's
truthiness test), with no range slice supplied and with items compared by
filesystem identity — every compared path exists and distinct
identifiers denote distinct files — the pending set is the full list
minus the checkpointed items, head-truncated to at most `n` items; with
no limit it is exactly the full list minus the checkpointed items. -/
theorem C1_amended_pending_is_filtered_then_truncated
    (fs : Streamer.FS) (items_all items_done : List String) (n : Nat)
    (hall : ∀ x ∈ items_all, (fs x).isSome)
    (hdone : ∀ d ∈ items_done, (fs d).isSome)
    (hinj : ∀ x ∈ items_all, ∀ d ∈ items_done, fs d = fs x → d = x)
    (hn : 0 < n) :
    Streamer.streamerItems fs items_all items_done (some n) none
        = .ok ((items_all.filter (fun x => !items_done.contains x)).take n)
    ∧ Streamer.streamerItems fs items_all items_done none none
        = .ok (items_all.filter (fun x => !items_done.contains x)) := by
  have hp := Streamer.pendingFilter_eq_filter fs items_all items_done hall hdone hinj
  constructor
  · simp [Streamer.streamerItems, hp, Streamer.applyLimit, hn.ne', Bind.bind,
      Except.bind, Pure.pure, Except.pure]
  · simp [Streamer.streamerItems, hp, Streamer.applyLimit, Bind.bind,
      Except.bind, Pure.pure, Except.pure]

/-- C1 amended, witnessed at the claim's own concrete scenario: full
list of 10 items, empty checkpoint log, limit 3 — the pending set is
exactly the first 3 items in enumeration order. -/
theorem C1_amended_witness :
    Streamer.streamerItems (fun _ => some 0) Streamer.items10 [] (some 3) none
        = .ok ((Streamer.items10.filter
            (fun x => !([] : List String).contains x)).take 3)
    ∧ (Streamer.items10.filter
            (fun x => !([] : List String).contains x)).take 3
        = ["i0", "i1", "i2"] :=
  ⟨(C1_amended_pending_is_filtered_then_truncated (fun _ => some 0) Streamer.items10 [] 3
      (fun x _ => rfl) (fun d hd => by simp at hd) (fun x _ d hd => by simp at hd)
      (by decide)).1, by rfl⟩

/-- C9: a supplied `file_range = (i, j)` (ends inclusive, `i ≤ j`,
`j` within the full list) selects exactly the `j − i + 1` items at
positions `i..j` of the full list (`items_all[i : j + 1]`), ignoring
both the checkpoint log and the limit (the right-hand side mentions
neither), and — when the full list has no duplicates — the selection is
disjoint from the selection of the slice `[j + 1, k]`. -/
theorem C9_range_slice_selects_positions
    (fs : Streamer.FS) (items_all items_done : List String)
    (limit : Option Nat) (i j k : Nat)
    (hij : i ≤ j) (hj : j < items_all.length) :
    Streamer.streamerItems fs items_all items_done limit (some (i, j))
        = .ok (Streamer.pySlice items_all i (j + 1))
    ∧ (Streamer.pySlice items_all i (j + 1)).length = j - i + 1
    ∧ (∀ t, t < j - i + 1 →
        (Streamer.pySlice items_all i (j + 1))[t]? = items_all[i + t]?)
    ∧ (items_all.Nodup →
        List.Disjoint (Streamer.pySlice items_all i (j + 1))
          (Streamer.pySlice items_all (j + 1) (k + 1))) := by
  refine ⟨rfl, ?_, ?_, ?_⟩
  · simp only [Streamer.pySlice, List.length_take, List.length_drop]
    omega
  · intro t ht
    rw [Streamer.pySlice, List.getElem?_take_of_lt (by omega), List.getElem?_drop]
  · intro hnd x hx1 hx2
    obtain ⟨t1, ht1, he1⟩ := List.getElem_of_mem hx1
    obtain ⟨t2, ht2, he2⟩ := List.getElem_of_mem hx2
    simp only [Streamer.pySlice, List.length_take, List.length_drop] at ht1 ht2
    have hq1 : items_all[i + t1]? = some x := by
      rw [← List.getElem?_drop, ← List.getElem?_take_of_lt (show t1 < j + 1 - i by omega)]
      rw [← Streamer.pySlice]
      exact he1 ▸ List.getElem?_eq_getElem (by
        simp only [Streamer.pySlice, List.length_take, List.length_drop]; omega)
    have hq2 : items_all[(j + 1) + t2]? = some x := by
      rw [← List.getElem?_drop, ← List.getElem?_take_of_lt (show t2 < k + 1 - (j + 1) by omega)]
      rw [← Streamer.pySlice]
      exact he2 ▸ List.getElem?_eq_getElem (by
        simp only [Streamer.pySlice, List.length_take, List.length_drop]; omega)
    have heq : i + t1 = (j + 1) + t2 :=
      List.getElem?_inj (by omega) hnd (hq1.trans hq2.symm)
    omega

/-- C9 witness at a concrete slice: full list of 10 items, range
`[2, 4]` — three items, positions 2..4, disjoint from `[5, 7]`. -/
theorem C9_range_slice_witness :
    Streamer.streamerItems (fun _ => some 0) Streamer.items10 [] none (some (2, 4))
        = .ok (Streamer.pySlice Streamer.items10 2 5)
    ∧ (Streamer.pySlice Streamer.items10 2 5).length = 4 - 2 + 1
    ∧ (∀ t, t < 4 - 2 + 1 →
        (Streamer.pySlice Streamer.items10 2 5)[t]? = Streamer.items10[2 + t]?)
    ∧ (Streamer.items10.Nodup →
        List.Disjoint (Streamer.pySlice Streamer.items10 2 5)
          (Streamer.pySlice Streamer.items10 5 8)) :=
  C9_range_slice_selects_positions (fun _ => some 0) Streamer.items10 [] none
    2 4 7 (by decide) (by decide)

/-- C10 counterexample: `_path_check` only calls `os.path.samefile`
against the entries of the checkpointed list, so with an empty
checkpoint log the orchestrator's construction succeeds and returns the
pending set even though the candidate item `"a"` does not exist as a
file — contradicting the claim that any missing candidate or
checkpointed identifier makes construction raise. -/
theorem C10_counterexample_missing_candidate_no_error :
    Streamer.streamerItems (fun _ => none) ["a"] [] none none = .ok ["a"]
    ∧ (fun _ => (none : Option Nat)) "a" = none := ⟨rfl, rfl⟩

/-- C10 amended: the pending-set computation raises before either stage
starts exactly when a performed `samefile` comparison touches a missing
path: (1) with an empty checkpoint list no comparison is performed and
construction succeeds regardless of missing files; (2) with a non-empty
checkpoint list, a missing candidate makes construction raise; (3) with
a missing path at the head of the checkpoint list, any candidate makes
construction raise. -/
theorem C10_amended_error_iff_comparison_touches_missing_path
    (fs : Streamer.FS) (items_all items_done : List String)
    (limit : Option Nat) :
    (Streamer.streamerItems fs items_all [] limit none
        = .ok (Streamer.applyLimit limit items_all))
    ∧ (items_done ≠ [] → (∃ x ∈ items_all, fs x = none) →
        Streamer.streamerItems fs items_all items_done limit none = .error ())
    ∧ (∀ d rest, items_done = d :: rest → fs d = none → items_all ≠ [] →
        Streamer.streamerItems fs items_all items_done limit none
          = .error ()) := by
  refine ⟨?_, ?_, ?_⟩
  · simp [Streamer.streamerItems, Streamer.pendingFilter_nil_done, Bind.bind,
      Except.bind, Pure.pure, Except.pure]
  · intro hne hex
    have herr := Streamer.pendingFilter_error_of_missing fs items_done hne
      items_all hex
    simp [Streamer.streamerItems, herr, Bind.bind, Except.bind]
  · intro d rest hdr hdnone hane
    obtain ⟨a, as, rfl⟩ : ∃ a as, items_all = a :: as := by
      cases items_all with
      | nil => exact absurd rfl hane
      | cons a as => exact ⟨a, as, rfl⟩
    subst hdr
    have hpc := Streamer.path_check_error_of_missing_head fs a d rest hdnone
    simp [Streamer.streamerItems, Streamer.pendingFilter, hpc, Bind.bind,
      Except.bind]

/-- C10 amended, witnessed: an everywhere-missing filesystem — empty
checkpoint list succeeds, non-empty checkpoint list raises. -/
theorem C10_amended_witness :
    Streamer.streamerItems (fun _ => none) ["a"] [] none none
        = .ok (Streamer.applyLimit none ["a"])
    ∧ Streamer.streamerItems (fun _ => none) ["a"] ["d"] none none
        = .error () :=
  ⟨(C10_amended_error_iff_comparison_touches_missing_path (fun _ => none)
      ["a"] [] none).1,
   (C10_amended_error_iff_comparison_touches_missing_path (fun _ => none)
      ["a"] ["d"] none).2.1 (by simp) ⟨"a", by simp, rfl⟩⟩

/-- C2 counterexample: the claim quantifies over every run, but when a
transform worker raises an exception that `datasets_to_cog` does not
catch (its YAML-write step, `_dataset_to_yaml`, is called outside any
`try`), `future.result()` re-raises it inside `Streamer.compute` and the
producer thread dies before the `put(None)` at line 519: from the
crashed state every continuation of the run has zero sentinels enqueued
and the consumer never terminates. -/
theorem C2_counterexample_uncaught_transform_failure_no_sentinel :
    Streamer.Reachable Streamer.c2Env "dest" ["f1"] Streamer.c2CrashState
    ∧ Streamer.c2CrashState.sentPut = 0
    ∧ (∀ t, Relation.ReflTransGen (Streamer.Step Streamer.c2Env "dest")
        Streamer.c2CrashState t →
        t.sentPut = 0 ∧ t.cstate ≠ Streamer.CState.done) := by
  refine ⟨Streamer.c2_crash_reachable, rfl, ?_⟩
  intro t ht
  have hreach : Streamer.Reachable Streamer.c2Env "dest" ["f1"] t :=
    Relation.ReflTransGen.trans Streamer.c2_crash_reachable ht
  have hinv := Streamer.inv_reachable Streamer.c2Env "dest" ["f1"] hreach
  have hcr : t.pstate = .crashed := Streamer.reach_crashed ht rfl
  have hs0 : t.sentPut = 0 := hinv.hcrash hcr
  refine ⟨hs0, ?_⟩
  intro hcd
  have hct := hinv.hcons.mp hcd
  have hcnt := hinv.hcount
  simp [Streamer.sentinelCount, hct, hs0] at hcnt

/-- C2 amended: in every run in which no transform worker raises an
uncaught exception, the producer enqueues the terminal sentinel at most
once, and exactly once by the time it terminates (producer-done iff one
sentinel enqueued); the sentinel transition can fire only when the
pending set is exhausted and all transform workers have returned; and
the consumer thread is terminated iff it has dequeued and processed
that sentinel.  When a worker does raise an uncaught exception (the
YAML-write step is uncaught), the producer dies with no sentinel ever
enqueued. -/
theorem C2_amended_sentinel_exactly_once_and_consumer_iff
    (env : Streamer.TransformEnv) (dest : String) (items0 : List String) :
    (∀ s, Streamer.Reachable env dest items0 s →
      s.sentPut ≤ 1
      ∧ (s.pstate = Streamer.PState.done ↔ s.sentPut = 1)
      ∧ (s.cstate = Streamer.CState.done ↔ s.consumedSentinel = true)
      ∧ (s.pstate = Streamer.PState.crashed → s.sentPut = 0))
    ∧ (∀ s s', Streamer.Reachable env dest items0 s →
        Streamer.Step env dest s s' → s'.sentPut = s.sentPut + 1 →
        s.items = [] ∧ s.inflight = []) := by
  constructor
  · intro s hs
    have hinv := Streamer.inv_reachable env dest items0 hs
    exact ⟨hinv.hsent, hinv.hdone, hinv.hcons, hinv.hcrash⟩
  · intro s s' hs hstep hsp
    have hinv := Streamer.inv_reachable env dest items0 hs
    cases hstep with
    | dispatch h hne => simp [Streamer.dispatchResult] at hsp
    | completeOk x v log h hx hr => simp at hsp
    | completeCrash x h hx hr => simp at hsp
    | batchDone h hi => simp at hsp
    | sentinel h hi hql => exact ⟨hi, hinv.hloop h⟩
    | drain h hqne => simp at hsp
    | spin h hq' => simp at hsp
    | procItem x b h => simp at hsp
    | procSentinel b h => simp at hsp
    | procEnd h => simp at hsp

/-- C2 amended, witnessed at the initial state of a concrete run. -/
theorem C2_amended_witness :
    (Streamer.initState ["a"]).sentPut ≤ 1
    ∧ ((Streamer.initState ["a"]).pstate = Streamer.PState.done
        ↔ (Streamer.initState ["a"]).sentPut = 1)
    ∧ ((Streamer.initState ["a"]).cstate = Streamer.CState.done
        ↔ (Streamer.initState ["a"]).consumedSentinel = true)
    ∧ ((Streamer.initState ["a"]).pstate = Streamer.PState.crashed
        → (Streamer.initState ["a"]).sentPut = 0) :=
  (C2_amended_sentinel_exactly_once_and_consumer_iff Streamer.benignEnv "d"
    ["a"]).1 _ Relation.ReflTransGen.refl

/-- C3: on every iteration of the producer loop the number of items
dispatched to the transform pool equals
`min(MAX_QUEUE_SIZE − current queue size, number of pending items)` —
the capacity is read from the queue state at that very iteration — and
in every reachable state of a run the hand-off queue's size never
exceeds its configured capacity `MAX_QUEUE_SIZE`. -/
theorem C3_dispatch_count_min_and_queue_bounded
    (env : Streamer.TransformEnv) (dest : String) (items0 : List String) :
    (∀ s, Streamer.Reachable env dest items0 s →
        s.queue.length ≤ Streamer.MAX_QUEUE_SIZE)
    ∧ (∀ s s', Streamer.Step env dest s s' →
        s.pstate = Streamer.PState.loop → s'.pstate = Streamer.PState.await →
        s'.inflight.length
          = min (Streamer.MAX_QUEUE_SIZE - s.queue.length) s.items.length) := by
  constructor
  · intro s hs
    exact (Streamer.inv_reachable env dest items0 hs).hq
  · intro s s' hstep hl ha
    cases hstep with
    | dispatch h hne =>
        show ((s.items.drop (s.items.length - Streamer.runSize s)).reverse).length
          = min (Streamer.MAX_QUEUE_SIZE - s.queue.length) s.items.length
        simp only [List.length_reverse, List.length_drop, Streamer.runSize]
        omega
    | completeOk x v log h hx hr => rw [h] at hl; cases hl
    | completeCrash x h hx hr => rw [h] at hl; cases hl
    | batchDone h hi => cases ha
    | sentinel h hi hql => cases ha
    | drain h hqne => rw [hl] at ha; cases ha
    | spin h hq' => rw [hl] at ha; cases ha
    | procItem x b h => rw [hl] at ha; cases ha
    | procSentinel b h => rw [hl] at ha; cases ha
    | procEnd h => rw [hl] at ha; cases ha

/-- C3 witnessed: the queue bound at the initial state of a concrete
run, and the dispatch count at its first iteration (queue empty, one
pending item: `min(16 − 0, 1) = 1` item dispatched). -/
theorem C3_witness :
    (Streamer.initState ["a"]).queue.length ≤ Streamer.MAX_QUEUE_SIZE
    ∧ (Streamer.dispatchResult (Streamer.initState ["a"])).inflight.length
        = min (Streamer.MAX_QUEUE_SIZE - (Streamer.initState ["a"]).queue.length)
            (Streamer.initState ["a"]).items.length :=
  ⟨(C3_dispatch_count_min_and_queue_bounded Streamer.benignEnv "d" ["a"]).1 _
      Relation.ReflTransGen.refl,
   (C3_dispatch_count_min_and_queue_bounded Streamer.benignEnv "d" ["a"]).2 _ _
      (Streamer.Step.dispatch _ rfl (by decide)) rfl rfl⟩

/-- C6 counterexample: on the single pending item `"f1"` whose only
prefix `"p1"` fails its staging `mkdir` (a caught, logged transform
failure: `c6Env.mkdirOk ≡ false`), `datasets_to_cog` records the
failure in its log yet still returns the item identifier, and the
reachable state after the producer collects that worker has
`some "f1"` on the hand-off queue — the failed item IS enqueued,
refuting "its identifier is never enqueued". -/
theorem C6_counterexample_failed_transform_still_enqueued :
    Streamer.datasets_to_cog Streamer.c6Env "f1" "dest"
        = .ok ("f1", ["p1"])
    ∧ Streamer.c6Env.mkdirOk ("dest" ++ "/" ++ "p1") = false
    ∧ Streamer.Reachable Streamer.c6Env "dest" ["f1"] Streamer.c6FinalState
    ∧ Streamer.c6FinalState.queue = [some "f1"] :=
  ⟨rfl, rfl, Streamer.c6_enqueued_reachable, rfl⟩

/-- C6 amended: a transform failure of the caught kinds (staging
`mkdir`; the GDAL conversions, caught inside `_dataset_to_cog`) is
logged, but the item is NOT dropped: as long as no uncaught exception
occurs (the YAML-write step is the uncaught one), `datasets_to_cog`
returns the item's own identifier together with the list of
failed prefixes, and everything the producer enqueues while running is
exactly the identifier of a dispatched item — so a transform-failed
item still reaches the publish stage, and whether it is checkpointed is
decided there, not by the transform failure. -/
theorem C6_amended_caught_failure_logged_item_enqueued_anyway
    (env : Streamer.TransformEnv) (file dest : String)
    (h : ∀ p ∈ env.unstacked file, env.mkdirOk (dest ++ "/" ++ p) = true →
      env.yamlRaises (dest ++ "/" ++ p) = false) :
    Streamer.datasets_to_cog env file dest
      = .ok (file, (env.unstacked file).filter
          (fun p => !env.mkdirOk (dest ++ "/" ++ p)))
    ∧ (∀ s s', Streamer.Step env dest s s' →
        s'.pstate = Streamer.PState.await →
        s'.queue.length = s.queue.length + 1 →
        ∃ x ∈ s.inflight, s'.queue = s.queue ++ [some x]) := by
  constructor
  · unfold Streamer.datasets_to_cog
    rw [Streamer.datasets_to_cog_go_ok env dest _ h]
    rfl
  · intro s s' hstep hps hql
    cases hstep with
    | dispatch h' hne => simp [Streamer.dispatchResult] at hql
    | completeOk x v log h' hx hr =>
        have hv : v = x := by
          have hfst := Streamer.datasets_to_cog_fst env x dest (v, log) hr
          simpa using hfst
        exact ⟨x, hx, by rw [← hv]⟩
    | completeCrash x h' hx hr => cases hps
    | batchDone h' hi => simp at hql
    | sentinel h' hi hql' => cases hps
    | drain h' hqne => simp at hql
    | spin h' hq' => simp at hql
    | procItem x b h' => simp at hql
    | procSentinel b h' => simp at hql
    | procEnd h' => simp at hql

/-- C6 amended, witnessed: the all-mkdir-failing environment — the
transform of `"f1"` logs its only prefix as failed and still returns
`"f1"`. -/
theorem C6_amended_witness :
    Streamer.datasets_to_cog Streamer.c6Env "f1" "d"
      = .ok ("f1", (Streamer.c6Env.unstacked "f1").filter
          (fun p => !Streamer.c6Env.mkdirOk ("d" ++ "/" ++ p))) :=
  (C6_amended_caught_failure_logged_item_enqueued_anyway Streamer.c6Env "f1" "d"
    (by intro p hp hm; simp [Streamer.c6Env] at hm)).1

/-- C7: (1) while the hand-off queue is empty, any step of the system
leaves the consumer where it is — at the top of its loop, with nothing
newly dispatched to publish and the sentinel unprocessed (the code spins
because `range(qsize())` is empty; no entry is dequeued or processed);
(2) once at least one entry is present, the drain step removes exactly
the snapshot of entries present at that moment (the whole current
queue), emptying the queue; (3) the drained batch is processed strictly
from the front, so publish dispatches follow the batch's original
order before the consumer drains again. -/
theorem C7_consumer_blocks_then_drains_snapshot_in_order
    (env : Streamer.TransformEnv) (dest : String) :
    (∀ s s', Streamer.Step env dest s s' →
        s.cstate = Streamer.CState.top → s.queue = [] →
        s'.cstate = Streamer.CState.top ∧ s'.published = s.published
          ∧ s'.consumedSentinel = s.consumedSentinel)
    ∧ (∀ s s' b, Streamer.Step env dest s s' →
        s.cstate = Streamer.CState.top →
        s'.cstate = Streamer.CState.processing b →
        b = s.queue ∧ s'.queue = [])
    ∧ (∀ s s' x b, Streamer.Step env dest s s' →
        s.cstate = Streamer.CState.processing (some x :: b) →
        (s'.cstate = s.cstate ∧ s'.published = s.published)
        ∨ (s'.cstate = Streamer.CState.processing b
            ∧ s'.published = s.published ++ [x])) := by
  refine ⟨?_, ?_, ?_⟩
  · intro s s' hstep ht hq
    cases hstep with
    | dispatch h hne => exact ⟨ht, rfl, rfl⟩
    | completeOk x v log h hx hr => exact ⟨ht, rfl, rfl⟩
    | completeCrash x h hx hr => exact ⟨ht, rfl, rfl⟩
    | batchDone h hi => exact ⟨ht, rfl, rfl⟩
    | sentinel h hi hql => exact ⟨ht, rfl, rfl⟩
    | drain h hqne => exact absurd hq hqne
    | spin h hq' => exact ⟨ht, rfl, rfl⟩
    | procItem x b h => rw [ht] at h; cases h
    | procSentinel b h => rw [ht] at h; cases h
    | procEnd h => rw [ht] at h; cases h
  · intro s s' b hstep ht hb
    cases hstep with
    | dispatch h hne => simp [Streamer.dispatchResult, ht] at hb
    | completeOk x v log h hx hr => rw [ht] at hb; cases hb
    | completeCrash x h hx hr => rw [ht] at hb; cases hb
    | batchDone h hi => rw [ht] at hb; cases hb
    | sentinel h hi hql => rw [ht] at hb; cases hb
    | drain h hqne =>
        have hb' : Streamer.CState.processing s.queue
            = Streamer.CState.processing b := hb
        injection hb' with hb''
        exact ⟨hb''.symm, rfl⟩
    | spin h hq' => rw [ht] at hb; cases hb
    | procItem x b' h => rw [ht] at h; cases h
    | procSentinel b' h => rw [ht] at h; cases h
    | procEnd h => rw [ht] at h; cases h
  · intro s s' x b hstep hp
    cases hstep with
    | dispatch h hne => exact Or.inl ⟨rfl, rfl⟩
    | completeOk x' v log h hx hr => exact Or.inl ⟨rfl, rfl⟩
    | completeCrash x' h hx hr => exact Or.inl ⟨rfl, rfl⟩
    | batchDone h hi => exact Or.inl ⟨rfl, rfl⟩
    | sentinel h hi hql => exact Or.inl ⟨rfl, rfl⟩
    | drain h hqne => rw [h] at hp; cases hp
    | spin h hq' => exact Or.inl ⟨rfl, rfl⟩
    | procItem x' b' h =>
        rw [h] at hp
        injection hp with hlist
        injection hlist with hx' hb'
        injection hx' with hx''
        refine Or.inr ⟨?_, ?_⟩
        · rw [hb']
        · rw [hx'']
    | procSentinel b' h =>
        rw [h] at hp
        injection hp with hlist
        injection hlist with hx' hb'
        cases hx'
    | procEnd h =>
        rw [h] at hp
        injection hp with hlist
        cases hlist

/-- C7 witnessed at a concrete empty-queue state: a system step from
the initial state (queue empty, consumer at loop top) leaves the
consumer at the top with nothing published and no sentinel processed. -/
theorem C7_witness :
    (Streamer.initState []).cstate = Streamer.CState.top
    ∧ (Streamer.initState []).published = (Streamer.initState []).published
    ∧ (Streamer.initState []).consumedSentinel
        = (Streamer.initState []).consumedSentinel :=
  (C7_consumer_blocks_then_drains_snapshot_in_order Streamer.benignEnv "d").1
    _ _ (Streamer.Step.spin _ rfl rfl) rfl rfl

/-- C8 counterexample: the signatures `(wofs_albers, year = None,
month = 5)` and `(wofs_albers, None, None)` are distinct, yet the
derived checkpoint-log path, full-item-list cache path, and staging
sub-directory all coincide: lines 433-434 and 437-438 append the month
only when the year is also truthy, and line 495 derives the staging
sub-directory from the product alone. -/
theorem C8_counterexample_month_without_year_collides :
    Streamer.jobFileName "wofs_albers" none (some 5)
        = Streamer.jobFileName "wofs_albers" none none
    ∧ Streamer.itemsAllFileName "wofs_albers" none (some 5)
        = Streamer.itemsAllFileName "wofs_albers" none none
    ∧ Streamer.stagingSubdir "wofs_albers" none (some 5)
        = Streamer.stagingSubdir "wofs_albers" none none
    ∧ ((none, some 5) : Option Nat × Option Nat) ≠ (none, none) :=
  ⟨rfl, rfl, rfl, by decide⟩

/-- C8 amended: for a fixed product, two signatures receive distinct
checkpoint-log paths and distinct full-item-list cache paths exactly up
to the code's normalisation of the (year, month) pair — the year counts
only when present and non-zero, the month only when the year counts and
the month is present and non-zero; whenever the normalised pairs
differ, both file names differ.  The staging sub-directory, by
contrast, is derived from the product alone, so every pair of
signatures sharing a product shares one staging sub-directory. -/
theorem C8_amended_normalised_signatures_scope_log_paths_not_staging
    (product : String) (y1 m1 y2 m2 : Option Nat)
    (hne : Streamer.normSig y1 m1 ≠ Streamer.normSig y2 m2) :
    Streamer.jobFileName product y1 m1 ≠ Streamer.jobFileName product y2 m2
    ∧ Streamer.itemsAllFileName product y1 m1
        ≠ Streamer.itemsAllFileName product y2 m2
    ∧ Streamer.stagingSubdir product y1 m1
        = Streamer.stagingSubdir product y2 m2 :=
  ⟨Streamer.signatureLogName_inj "streamer_job_control" product hne,
   Streamer.signatureLogName_inj "items_all" product hne,
   rfl⟩

/-- C8 amended, witnessed at `(x, 2018, ·)` versus `(x, 2019, ·)`. -/
theorem C8_amended_witness :
    Streamer.jobFileName "x" (some 2018) none
        ≠ Streamer.jobFileName "x" (some 2019) none
    ∧ Streamer.itemsAllFileName "x" (some 2018) none
        ≠ Streamer.itemsAllFileName "x" (some 2019) none
    ∧ Streamer.stagingSubdir "x" (some 2018) none
        = Streamer.stagingSubdir "x" (some 2019) none :=
  C8_amended_normalised_signatures_scope_log_paths_not_staging "x"
    (some 2018) none (some 2019) none (by decide)
